import Mathlib

/-
  Verification development for jimmyfrasche/string-special-case-counter.

  Shallow embedding of src/main.go: the Kind classifier (KindOf), the
  conversion recognizer (isConversion), the builtin-call recognizer
  (count.builtin), the per-node counter routing (count.node), the line
  counter (lines.delta) and the report printer.

  The type-checking collaborator (go/loader's PackageInfo) is modelled as
  a record of resolution functions: expression-to-type (pi.Types, where a
  missing entry is `none`, standing for Go's nil type), selector-to-selection
  (pi.Selections, `true` standing for a non-nil field/method selection) and
  identifier-to-object (pi.Uses).  Go slice indexing that can go out of
  bounds is modelled with Option results: `none` stands for a runtime panic.
-/

/-- The kinds of go/types.Basic this program distinguishes.  `types.Byte`
is `types.Uint8` and `types.Rune` is `types.Int32`; every other basic kind
is collapsed into `OtherBasic`, which the source's default branch maps to
`Other`. -/
inductive BasicKind
  | String
  | UntypedString
  | Byte
  | Rune
  | UntypedRune
  | UntypedInt
  | OtherBasic
deriving DecidableEq

/-- The fragment of go/types.Type that the source inspects: basic types,
slices, named types (with their declared name and underlying type),
function signatures, pointers, and a default for everything else. -/
inductive Ty
  | Basic (k : BasicKind)
  | Slice (elem : Ty)
  | Named (name : String) (under : Ty)
  | Signature
  | Pointer (elem : Ty)
  | OtherTy
deriving DecidableEq

/-- The Kind enumeration of src/main.go lines 100-109. -/
inductive Kind
  | Other
  | String
  | Bytes
  | Runes
  | Byte
  | Rune
deriving DecidableEq

/-- KindOf, from src/main.go lines 128-162. -/
def KindOf : Ty → Kind
  | Ty.Basic k =>
    match k with
    | BasicKind.String => Kind.String
    | BasicKind.UntypedString => Kind.String
    | BasicKind.Byte => Kind.Byte
    | BasicKind.Rune => Kind.Rune
    | BasicKind.UntypedRune => Kind.Rune
    | BasicKind.UntypedInt => Kind.Rune
    | BasicKind.OtherBasic => Kind.Other
  | Ty.Slice e =>
    match KindOf e with
    | Kind.Byte => Kind.Bytes
    | Kind.Rune => Kind.Runes
    | _ => Kind.Other
  | Ty.Named _ u => KindOf u
  | _ => Kind.Other

/-- In Go, `KindOf(pi.Types[e].Type)` is applied to a possibly-nil type; a
nil type hits the type switch's default branch and yields `Other`. -/
def KindOfOpt : Option Ty → Kind
  | none => Kind.Other
  | some t => KindOf t

/-- Spec-mirror of the Kind classifier, written from the words of §4.1 of
the spec (rules applied in order: unwrap named types; classify basic types
by text/8-bit-unsigned/codepoint-or-untyped-constant kind; classify slices
by their element's Kind; default to Other). -/
def classify : Ty → Kind
  | Ty.Named _ u => classify u
  | Ty.Basic k =>
    if k = BasicKind.String ∨ k = BasicKind.UntypedString then Kind.String
    else if k = BasicKind.Byte then Kind.Byte
    else if k = BasicKind.Rune ∨ k = BasicKind.UntypedRune ∨ k = BasicKind.UntypedInt then
      Kind.Rune
    else Kind.Other
  | Ty.Slice e =>
    if classify e = Kind.Byte then Kind.Bytes
    else if classify e = Kind.Rune then Kind.Runes
    else Kind.Other
  | _ => Kind.Other

/-- Claim C2: the Kind classifier is a pure total function returning exactly
one of the six Kind values; text basics (including the untyped string kind)
map to String, the 8-bit unsigned basic to Byte, the codepoint basic and
untyped rune and untyped integer constants to Rune, slices to Bytes/Runes
by element Kind and Other otherwise, named types as their underlying type,
and everything else to Other.  Stated as: KindOf from the source agrees
with the classifier written from the spec's rules, on every type. -/
theorem C2_KindOf_matches_spec : ∀ t : Ty, KindOf t = classify t := by
  intro t
  induction t with
  | Basic k => cases k <;> rfl
  | Slice e ih => simp only [KindOf, classify, ← ih]; rcases h : KindOf e <;> simp [h]
  | Named n u ih => simpa [KindOf, classify] using ih
  | Signature => rfl
  | Pointer e ih => rfl
  | OtherTy => rfl

/-- The fragment of go/ast.Expr the source inspects.  A SelectorExpr `x.y`
stores its X expression and the name of its Sel identifier (isConversion
only ever reads the Sel's name after replacing the callee by it).  A
CallExpr records whether it is written with the trailing `...` expansion
marker (`call.Ellipsis != token.NoPos`).  Remaining node shapes, which the
recognizers all reject, collapse into OtherExpr. -/
inductive Expr
  | Ident (name : String)
  | Selector (x : Expr) (sel : String)
  | Paren (e : Expr)
  | Call (fn : Expr) (args : List Expr) (ellipsis : Bool)
  | ArrayType (elt : Expr)
  | Star (e : Expr)
  | OtherExpr

/-- A resolved go/types.Object as far as this program reads it: it is
either the predeclared builtin of a given name, or some other declared
entity (function, variable, type name, ...) of a given name.  The source
only ever reads the object's Name. -/
inductive Obj
  | Builtin (name : String)
  | Declared (name : String)
deriving DecidableEq

/-- The object's name, go/types.Object.Name(). -/
def Obj.name : Obj → String
  | Obj.Builtin n => n
  | Obj.Declared n => n

/-- The read-only resolution context supplied by the loader collaborator
(loader.PackageInfo).  `Types e` is `pi.Types[e].Type` with `none` for a
nil/missing type; `Selections e` is whether `pi.Selections[e]` is non-nil;
`Uses e` is `pi.Uses[e]` for an identifier node. -/
structure PackageInfo where
  Types : Expr → Option Ty
  Selections : Expr → Bool
  Uses : Expr → Option Obj

/-- astutil.Unparen: strip all redundant parentheses. -/
def unparen : Expr → Expr
  | Expr.Paren e => unparen e
  | e => e

/-- The shape switch at the end of isConversion (src/main.go lines
191-211), after the callee has been paren-stripped and a package-qualified
selector replaced by its Sel identifier: array/star types are accepted
unconditionally; an identifier is accepted when the resolved target type is
basic, or named with the same declared name; everything else is rejected. -/
def isConversionTail (tgt : Option Ty) (conv : Expr) (a : Expr) :
    Option (Option Ty × Expr) :=
  match conv with
  | Expr.ArrayType _ => some (tgt, a)
  | Expr.Star _ => some (tgt, a)
  | Expr.Ident nm =>
    match tgt with
    | some (Ty.Basic _) => some (tgt, a)
    | some (Ty.Named onm _) => if onm = nm then some (tgt, a) else none
    | _ => none
  | _ => none

/-- isConversion, from src/main.go lines 166-214.  Returns the resolved
target type (possibly nil) and the single argument on success. -/
def isConversion (pi : PackageInfo) (n : Expr) : Option (Option Ty × Expr) :=
  match n with
  | Expr.Call f args ell =>
    match args, ell with
    | [a], false =>
      match unparen f with
      | Expr.Selector x sel =>
        if pi.Selections (Expr.Selector x sel) then none
        else isConversionTail (pi.Types f) (Expr.Ident sel) a
      | conv => isConversionTail (pi.Types f) conv a
    | _, _ => none
  | _ => none

/-- Spec-mirror of §4.2's acceptance condition for an identifier callee:
the resolved target type is a basic/primitive type, or a named type whose
declared name textually equals the identifier. -/
def specTargetOK (tgt : Option Ty) (nm : String) : Bool :=
  match tgt with
  | some (Ty.Basic _) => true
  | some (Ty.Named onm _) => onm = nm
  | _ => false

/-- Spec-mirror of the Conversion Recognizer, written from the algorithm of
§4.2 of the spec: require exactly one argument and no variadic-expansion
marker; resolve the callee's type as the candidate target; strip redundant
parentheses; reject a qualified reference that resolves to a field/method
selection, otherwise keep its Name identifier; accept array/slice-type and
pointer-dereference callees unconditionally; accept an identifier callee
iff specTargetOK holds; reject every other shape; on acceptance return the
target type and the single argument. -/
def tryConversion (pi : PackageInfo) (n : Expr) : Option (Option Ty × Expr) :=
  match n with
  | Expr.Call f args ell =>
    if args.length = 1 ∧ ell = false then
      match args.head? with
      | none => none
      | some a =>
        let tgt := pi.Types f
        match unparen f with
        | Expr.ArrayType _ => some (tgt, a)
        | Expr.Star _ => some (tgt, a)
        | Expr.Ident nm => if specTargetOK tgt nm then some (tgt, a) else none
        | Expr.Selector x sel =>
          if pi.Selections (Expr.Selector x sel) then none
          else if specTargetOK tgt sel then some (tgt, a) else none
        | _ => none
    else none
  | _ => none

/-- The identifier branch of the shape switch agrees with the spec's
target-type condition. -/
theorem isConversionTail_ident (tgt : Option Ty) (nm : String) (a : Expr) :
    isConversionTail tgt (Expr.Ident nm) a
      = if specTargetOK tgt nm then some (tgt, a) else none := by
  rcases tgt with _ | t
  · rfl
  · cases t with
    | Basic k => rfl
    | Slice e => rfl
    | Named onm u =>
      by_cases h : onm = nm
      · simp [isConversionTail, specTargetOK, h]
      · simp [isConversionTail, specTargetOK, h]
    | Signature => rfl
    | Pointer e => rfl
    | OtherTy => rfl

/-- Claim C1: the Conversion Recognizer matches the spec's algorithm
exactly: it declines calls without exactly one argument or carrying the
variadic-expansion marker; after paren-stripping it accepts array/slice
and star callees unconditionally; it accepts a bare identifier callee
(possibly the Name of a qualified reference) iff the resolved target type
is basic or a named type whose declared name equals the identifier; it
declines every other callee shape; and on acceptance it returns the
resolved target type and the single argument.  Stated as: isConversion
from the source agrees with tryConversion written from the spec, on every
context and node. -/
theorem C1_isConversion_matches_spec :
    ∀ (pi : PackageInfo) (n : Expr), isConversion pi n = tryConversion pi n := by
  intro pi n
  cases n with
  | Call f args ell =>
    cases args with
    | nil => cases ell <;> rfl
    | cons a rest =>
      cases rest with
      | cons b r2 => cases ell <;> rfl
      | nil =>
        cases ell with
        | true => rfl
        | false =>
          have hc : (([a] : List Expr).length = 1 ∧ (false : Bool) = false) := by simp
          simp only [isConversion, tryConversion, if_pos hc, List.head?_cons]
          cases hu : unparen f with
          | Ident nm => exact isConversionTail_ident _ _ _
          | Selector x sel =>
            by_cases hs : pi.Selections (Expr.Selector x sel) = true
            · simp [hs]
            · simp only [Bool.not_eq_true] at hs
              simp [hs, isConversionTail_ident]
          | Paren e => rfl
          | Call g as el => rfl
          | ArrayType elt => rfl
          | Star e => rfl
          | OtherExpr => rfl
  | Ident nm => rfl
  | Selector x s => rfl
  | Paren e => rfl
  | ArrayType e => rfl
  | Star e => rfl
  | OtherExpr => rfl

/-- The counter aggregate, from src/main.go lines 216-247 (the FileSet and
per-category log flags are I/O plumbing and are not modelled). -/
structure count where
  str2bs : Nat
  bs2str : Nat
  str2rs : Nat
  r2str : Nat
  b2str : Nat
  append : Nat
  copy : Nat
  rAppend : Nat
  rCopy : Nat
  lloc : Nat
deriving DecidableEq

/-- The all-zero counter record created at the start of main. -/
def count.zero : count := ⟨0, 0, 0, 0, 0, 0, 0, 0, 0, 0⟩

/-- c.str2bs++ -/
def count.bumpStr2bs (c : count) : count :=
  ⟨c.str2bs + 1, c.bs2str, c.str2rs, c.r2str, c.b2str, c.append, c.copy, c.rAppend, c.rCopy, c.lloc⟩

/-- c.bs2str++ -/
def count.bumpBs2str (c : count) : count :=
  ⟨c.str2bs, c.bs2str + 1, c.str2rs, c.r2str, c.b2str, c.append, c.copy, c.rAppend, c.rCopy, c.lloc⟩

/-- c.str2rs++ -/
def count.bumpStr2rs (c : count) : count :=
  ⟨c.str2bs, c.bs2str, c.str2rs + 1, c.r2str, c.b2str, c.append, c.copy, c.rAppend, c.rCopy, c.lloc⟩

/-- c.r2str++ -/
def count.bumpR2str (c : count) : count :=
  ⟨c.str2bs, c.bs2str, c.str2rs, c.r2str + 1, c.b2str, c.append, c.copy, c.rAppend, c.rCopy, c.lloc⟩

/-- c.b2str++ -/
def count.bumpB2str (c : count) : count :=
  ⟨c.str2bs, c.bs2str, c.str2rs, c.r2str, c.b2str + 1, c.append, c.copy, c.rAppend, c.rCopy, c.lloc⟩

/-- c.append++ -/
def count.bumpAppend (c : count) : count :=
  ⟨c.str2bs, c.bs2str, c.str2rs, c.r2str, c.b2str, c.append + 1, c.copy, c.rAppend, c.rCopy, c.lloc⟩

/-- c.copy++ -/
def count.bumpCopy (c : count) : count :=
  ⟨c.str2bs, c.bs2str, c.str2rs, c.r2str, c.b2str, c.append, c.copy + 1, c.rAppend, c.rCopy, c.lloc⟩

/-- c.rAppend++ -/
def count.bumpRAppend (c : count) : count :=
  ⟨c.str2bs, c.bs2str, c.str2rs, c.r2str, c.b2str, c.append, c.copy, c.rAppend + 1, c.rCopy, c.lloc⟩

/-- c.rCopy++ -/
def count.bumpRCopy (c : count) : count :=
  ⟨c.str2bs, c.bs2str, c.str2rs, c.r2str, c.b2str, c.append, c.copy, c.rAppend, c.rCopy + 1, c.lloc⟩

/-- The argument checks of count.builtin, src/main.go lines 283-319: the
code indexes call.Args[0] and call.Args[1] directly, so an absent argument
is a runtime panic, modelled as `none`.  With one argument present, the
Kind check on argument 0 happens before the indexing of argument 1, so a
non-Bytes single argument returns cleanly and a Bytes single argument
panics. -/
def count.builtinArgs (pi : PackageInfo) (c : count) (args : List Expr)
    (isAppend : Bool) : Option (count × Bool) :=
  match args with
  | [] => none
  | [a0] =>
    if KindOfOpt (pi.Types a0) ≠ Kind.Bytes then some (c, false) else none
  | a0 :: a1 :: _ =>
    if KindOfOpt (pi.Types a0) ≠ Kind.Bytes then some (c, false)
    else
      let k := KindOfOpt (pi.Types a1)
      if k = Kind.Bytes then
        match isConversion pi a1 with
        | none => some (c, false)
        | some (_, arg) =>
          if KindOfOpt (pi.Types arg) ≠ Kind.String then some (c, false)
          else if isAppend then some (c.bumpRAppend, true)
          else some (c.bumpRCopy, true)
      else if k ≠ Kind.String then some (c, false)
      else if isAppend then some (c.bumpAppend, true)
      else some (c.bumpCopy, true)

/-- count.builtin, from src/main.go lines 257-320.  Returns the updated
counters and the `counted` flag; `none` models a runtime panic from an
out-of-bounds argument index. -/
def count.builtin (pi : PackageInfo) (c : count) (fn : Expr)
    (args : List Expr) (ell : Bool) : Option (count × Bool) :=
  match fn with
  | Expr.Ident nm =>
    match pi.Uses (Expr.Ident nm) with
    | none => some (c, false)
    | some bi =>
      if bi.name = "append" then
        if args.length ≠ 2 ∨ ell = false then some (c, false)
        else count.builtinArgs pi c args true
      else if bi.name = "copy" then count.builtinArgs pi c args false
      else some (c, false)
  | _ => some (c, false)

/-- count.node, from src/main.go lines 322-374: first offer the call to the
builtin recognizer; if it declines, try the conversion recognizer, classify
both ends, and route into the conversion counters. -/
def count.node (pi : PackageInfo) (c : count) (n : Expr) : Option count :=
  match n with
  | Expr.Call f args ell =>
    match count.builtin pi c f args ell with
    | none => none
    | some (c1, true) => some c1
    | some (c1, false) =>
      match isConversion pi (Expr.Call f args ell) with
      | none => some c1
      | some (toType, _) =>
        let toK := KindOfOpt toType
        if toK = Kind.Other then some c1
        else
          match args with
          | [] => none
          | a0 :: _ =>
            let fromK := KindOfOpt (pi.Types a0)
            if fromK = Kind.Other then some c1
            else
              match toK, fromK with
              | Kind.String, Kind.Byte => some c1.bumpB2str
              | Kind.String, Kind.Rune => some c1.bumpR2str
              | Kind.String, Kind.Bytes => some c1.bumpBs2str
              | Kind.Bytes, Kind.String => some c1.bumpStr2bs
              | Kind.Runes, Kind.String => some c1.bumpStr2rs
              | _, _ => some c1
  | _ => some c

/-- When count.builtinArgs reports `counted = false` it has not touched the
counters. -/
theorem count.builtinArgs_false_eq (pi : PackageInfo) (c : count)
    (args : List Expr) (ia : Bool) (c1 : count)
    (h : count.builtinArgs pi c args ia = some (c1, false)) : c1 = c := by
  cases args with
  | nil => simp [count.builtinArgs] at h
  | cons a0 rest =>
    cases rest with
    | nil =>
      simp only [count.builtinArgs] at h
      split at h <;> simp_all
    | cons a1 r2 =>
      simp only [count.builtinArgs] at h
      repeat' split at h
      all_goals simp_all

/-- When count.builtinArgs reports `counted = true` it has incremented
exactly one of the four builtin counters. -/
theorem count.builtinArgs_true_cases (pi : PackageInfo) (c : count)
    (args : List Expr) (ia : Bool) (c1 : count)
    (h : count.builtinArgs pi c args ia = some (c1, true)) :
    c1 = c.bumpAppend ∨ c1 = c.bumpCopy ∨ c1 = c.bumpRAppend ∨ c1 = c.bumpRCopy := by
  cases args with
  | nil => simp [count.builtinArgs] at h
  | cons a0 rest =>
    cases rest with
    | nil =>
      simp only [count.builtinArgs] at h
      split at h <;> simp_all
    | cons a1 r2 =>
      simp only [count.builtinArgs] at h
      repeat' split at h
      all_goals simp_all

/-- When count.builtin reports `counted = false` it has not touched the
counters. -/
theorem count.builtin_false_eq (pi : PackageInfo) (c : count) (fn : Expr)
    (args : List Expr) (ell : Bool) (c1 : count)
    (h : count.builtin pi c fn args ell = some (c1, false)) : c1 = c := by
  cases fn with
  | Ident nm =>
    simp only [count.builtin] at h
    cases hu : pi.Uses (Expr.Ident nm) with
    | none => rw [hu] at h; simp_all
    | some bi =>
      simp only [hu] at h
      by_cases hb : bi.name = "append"
      · rw [if_pos hb] at h
        by_cases hsh : args.length ≠ 2 ∨ ell = false
        · rw [if_pos hsh] at h; simp_all
        · rw [if_neg hsh] at h
          exact count.builtinArgs_false_eq _ _ _ _ _ h
      · rw [if_neg hb] at h
        by_cases hc2 : bi.name = "copy"
        · rw [if_pos hc2] at h
          exact count.builtinArgs_false_eq _ _ _ _ _ h
        · rw [if_neg hc2] at h; simp_all
  | Selector x s => simp_all [count.builtin]
  | Paren e => simp_all [count.builtin]
  | Call f as el => simp_all [count.builtin]
  | ArrayType e => simp_all [count.builtin]
  | Star e => simp_all [count.builtin]
  | OtherExpr => simp_all [count.builtin]

/-- When count.builtin reports `counted = true` it has incremented exactly
one of the four builtin counters. -/
theorem count.builtin_true_cases (pi : PackageInfo) (c : count) (fn : Expr)
    (args : List Expr) (ell : Bool) (c1 : count)
    (h : count.builtin pi c fn args ell = some (c1, true)) :
    c1 = c.bumpAppend ∨ c1 = c.bumpCopy ∨ c1 = c.bumpRAppend ∨ c1 = c.bumpRCopy := by
  cases fn with
  | Ident nm =>
    simp only [count.builtin] at h
    cases hu : pi.Uses (Expr.Ident nm) with
    | none => rw [hu] at h; simp_all
    | some bi =>
      simp only [hu] at h
      by_cases hb : bi.name = "append"
      · rw [if_pos hb] at h
        by_cases hsh : args.length ≠ 2 ∨ ell = false
        · rw [if_pos hsh] at h; simp_all
        · rw [if_neg hsh] at h
          exact count.builtinArgs_true_cases _ _ _ _ _ h
      · rw [if_neg hb] at h
        by_cases hc2 : bi.name = "copy"
        · rw [if_pos hc2] at h
          exact count.builtinArgs_true_cases _ _ _ _ _ h
        · rw [if_neg hc2] at h; simp_all
  | Selector x s => simp_all [count.builtin]
  | Paren e => simp_all [count.builtin]
  | Call f as el => simp_all [count.builtin]
  | ArrayType e => simp_all [count.builtin]
  | Star e => simp_all [count.builtin]
  | OtherExpr => simp_all [count.builtin]

/-- Claim C3: builtin gating is strict.  First conjunct: a call whose
callee resolves to an object named `append` is never counted in any
category unless it has exactly two arguments and the variadic-expansion
marker (the recognizer returns `counted = false` with the counters
untouched).  Second conjunct: for any call, if argument 0 does not
classify as Bytes, the builtin recognizer leaves the counters untouched. -/
theorem C3_builtin_gating (pi : PackageInfo) (fn : Expr) (args : List Expr)
    (ell : Bool) (c : count) :
    ((∃ o, pi.Uses fn = some o ∧ o.name = "append") →
      (args.length ≠ 2 ∨ ell = false) →
      count.builtin pi c fn args ell = some (c, false))
    ∧ (∀ a0, args.head? = some a0 → KindOfOpt (pi.Types a0) ≠ Kind.Bytes →
      count.builtin pi c fn args ell = some (c, false)) := by
  constructor
  · rintro ⟨o, ho, hnm⟩ hsh
    cases fn with
    | Ident nm => simp [count.builtin, ho, hnm, hsh]
    | Selector x s => simp [count.builtin]
    | Paren e => simp [count.builtin]
    | Call f as el => simp [count.builtin]
    | ArrayType e => simp [count.builtin]
    | Star e => simp [count.builtin]
    | OtherExpr => simp [count.builtin]
  · intro a0 h0 hk
    cases fn with
    | Ident nm =>
      cases hu : pi.Uses (Expr.Ident nm) with
      | none => simp [count.builtin, hu]
      | some bi =>
        simp only [count.builtin, hu]
        by_cases hb : bi.name = "append"
        · rw [if_pos hb]
          by_cases hsh : args.length ≠ 2 ∨ ell = false
          · rw [if_pos hsh]
          · rw [if_neg hsh]
            push_neg at hsh
            cases args with
            | nil => simp at h0
            | cons x t =>
              simp only [List.head?_cons, Option.some.injEq] at h0
              subst h0
              cases t with
              | nil => simp at hsh
              | cons a1 t2 => simp [count.builtinArgs, hk]
        · rw [if_neg hb]
          by_cases hc2 : bi.name = "copy"
          · rw [if_pos hc2]
            cases args with
            | nil => simp at h0
            | cons x t =>
              simp only [List.head?_cons, Option.some.injEq] at h0
              subst h0
              cases t with
              | nil => simp [count.builtinArgs, hk]
              | cons a1 t2 => simp [count.builtinArgs, hk]
          · rw [if_neg hc2]
    | Selector x s => simp [count.builtin]
    | Paren e => simp [count.builtin]
    | Call f as el => simp [count.builtin]
    | ArrayType e => simp [count.builtin]
    | Star e => simp [count.builtin]
    | OtherExpr => simp [count.builtin]

/-- Witness for C3_builtin_gating at a concrete input: a one-argument call
whose callee resolves to an object named `append` is not counted. -/
theorem C3_builtin_gating_witness :
    count.builtin
        (PackageInfo.mk (fun _ => none) (fun _ => false)
          (fun _ => some (Obj.Builtin "append")))
        count.zero (Expr.Ident "append") [Expr.Ident "s"] false
      = some (count.zero, false) :=
  (C3_builtin_gating _ _ _ _ _).1 ⟨Obj.Builtin "append", rfl, rfl⟩
    (Or.inl (by decide))

/-- Claim C4: redundant supersedes plain.  For a recognized builtin call
(callee identifier resolving to an object named `append` with the
two-argument expansion shape, or named `copy`) whose arguments 0 and 1
both classify as Bytes: if the Conversion Recognizer matches argument 1
and the nested argument classifies as String, exactly the redundant
counter (rAppend or rCopy) is incremented and the recognizer reports
counted; if the recognizer does not match argument 1, or matches it with
a non-String nested argument, no builtin counter is incremented at all. -/
theorem C4_redundant_supersedes_plain (pi : PackageInfo) (nm : String)
    (o : Obj) (args : List Expr) (ell : Bool) (a0 a1 : Expr)
    (rest : List Expr) (c : count)
    (hargs : args = a0 :: a1 :: rest)
    (hu : pi.Uses (Expr.Ident nm) = some o)
    (hname : (o.name = "append" ∧ args.length = 2 ∧ ell = true) ∨ o.name = "copy")
    (hk0 : KindOfOpt (pi.Types a0) = Kind.Bytes)
    (hk1 : KindOfOpt (pi.Types a1) = Kind.Bytes) :
    (∀ t inner, isConversion pi a1 = some (t, inner) →
        KindOfOpt (pi.Types inner) = Kind.String →
        count.builtin pi c (Expr.Ident nm) args ell
          = some (if o.name = "append" then c.bumpRAppend else c.bumpRCopy, true))
    ∧ (isConversion pi a1 = none →
        count.builtin pi c (Expr.Ident nm) args ell = some (c, false))
    ∧ (∀ t inner, isConversion pi a1 = some (t, inner) →
        KindOfOpt (pi.Types inner) ≠ Kind.String →
        count.builtin pi c (Expr.Ident nm) args ell = some (c, false)) := by
  subst hargs
  have hargsK :
      ∀ ia, count.builtinArgs pi c (a0 :: a1 :: rest) ia
        = match isConversion pi a1 with
          | none => some (c, false)
          | some (_, arg) =>
            if KindOfOpt (pi.Types arg) ≠ Kind.String then some (c, false)
            else if ia then some (c.bumpRAppend, true) else some (c.bumpRCopy, true) := by
    intro ia
    simp [count.builtinArgs, hk0, hk1]
  rcases hname with ⟨ha, hlen, hell⟩ | hcp
  · have hrest : rest = [] := by
      cases rest with
      | nil => rfl
      | cons x t => simp at hlen
    subst hrest; subst hell
    refine ⟨?_, ?_, ?_⟩
    · intro t inner hconv hstr
      simp [count.builtin, hu, ha, hargsK, hconv, hstr]
    · intro hconv
      simp [count.builtin, hu, ha, hargsK, hconv]
    · intro t inner hconv hstr
      simp [count.builtin, hu, ha, hargsK, hconv, hstr]
  · have hne : o.name ≠ "append" := by rw [hcp]; decide
    refine ⟨?_, ?_, ?_⟩
    · intro t inner hconv hstr
      simp [count.builtin, hu, hcp, hne, hargsK, hconv, hstr]
    · intro hconv
      simp [count.builtin, hu, hcp, hne, hargsK, hconv]
    · intro t inner hconv hstr
      simp [count.builtin, hu, hcp, hne, hargsK, hconv, hstr]

/-- A context for exercising the builtin recognizer on
`append(bs, []byte(s)...)`: `bs` is a []byte, `s` is a string, the
conversion expression `[]byte(s)` has type []byte, and `append` resolves
to the predeclared builtin. -/
def piAppend : PackageInfo :=
  PackageInfo.mk
    (fun e =>
      match e with
      | Expr.Ident "bs" => some (Ty.Slice (Ty.Basic BasicKind.Byte))
      | Expr.Ident "s" => some (Ty.Basic BasicKind.String)
      | Expr.ArrayType (Expr.Ident "byte") => some (Ty.Slice (Ty.Basic BasicKind.Byte))
      | Expr.Call (Expr.ArrayType (Expr.Ident "byte")) [Expr.Ident "s"] false =>
        some (Ty.Slice (Ty.Basic BasicKind.Byte))
      | _ => none)
    (fun _ => false)
    (fun e =>
      match e with
      | Expr.Ident "append" => some (Obj.Builtin "append")
      | Expr.Ident "copy" => some (Obj.Builtin "copy")
      | _ => none)

/-- The expression `[]byte(s)`. -/
def convBytesOfS : Expr :=
  Expr.Call (Expr.ArrayType (Expr.Ident "byte")) [Expr.Ident "s"] false

/-- Witness for C4_redundant_supersedes_plain: `append(bs, []byte(s)...)`
increments exactly the redundant-append counter. -/
theorem C4_redundant_supersedes_plain_witness :
    count.builtin piAppend count.zero (Expr.Ident "append")
        [Expr.Ident "bs", convBytesOfS] true
      = some (count.zero.bumpRAppend, true) := by
  have h :=
    ((C4_redundant_supersedes_plain piAppend "append" (Obj.Builtin "append")
        [Expr.Ident "bs", convBytesOfS] true (Expr.Ident "bs") convBytesOfS
        [] count.zero rfl rfl (Or.inl ⟨rfl, rfl, rfl⟩) (by decide)
        (by decide)).1
      (some (Ty.Slice (Ty.Basic BasicKind.Byte))) (Expr.Ident "s")
      rfl (by decide))
  simpa using h

/-- A context in which the identifier `copy` resolves to a user-declared
(non-builtin) object that merely shares the builtin's surface name, while
`bs` is a []byte and `s` is a string. -/
def piShadowCopy : PackageInfo :=
  PackageInfo.mk
    (fun e =>
      match e with
      | Expr.Ident "bs" => some (Ty.Slice (Ty.Basic BasicKind.Byte))
      | Expr.Ident "s" => some (Ty.Basic BasicKind.String)
      | _ => none)
    (fun _ => false)
    (fun e =>
      match e with
      | Expr.Ident "copy" => some (Obj.Declared "copy")
      | _ => none)

/-- Counterexample to claim C5: the recognizer only compares the resolved
object's name against "append"/"copy"; here the callee resolves to a
user-declared (non-builtin) object named "copy", and the call is
nevertheless counted (the interesting-copy counter is incremented). -/
theorem C5_counterexample :
    count.builtin piShadowCopy count.zero (Expr.Ident "copy")
        [Expr.Ident "bs", Expr.Ident "s"] false
      = some (count.zero.bumpCopy, true)
    ∧ piShadowCopy.Uses (Expr.Ident "copy") = some (Obj.Declared "copy") := by
  constructor
  · decide
  · decide

/-- Claim C5 as amended: a builtin category is recorded only when the
callee is a bare identifier that resolves, via the identifier-resolution
context, to an object *named* `append` or `copy`; the check is by name
only, so it does not exclude user-declared entities that share those
names. -/
theorem C5_amended_name_gating (pi : PackageInfo) (c c' : count) (fn : Expr)
    (args : List Expr) (ell : Bool)
    (h : count.builtin pi c fn args ell = some (c', true)) :
    ∃ nm o, fn = Expr.Ident nm ∧ pi.Uses (Expr.Ident nm) = some o ∧
      (o.name = "append" ∨ o.name = "copy") := by
  cases fn with
  | Ident nm =>
    simp only [count.builtin] at h
    cases hu : pi.Uses (Expr.Ident nm) with
    | none => rw [hu] at h; simp_all
    | some bi =>
      simp only [hu] at h
      by_cases hb : bi.name = "append"
      · exact ⟨nm, bi, rfl, hu, Or.inl hb⟩
      · by_cases hc2 : bi.name = "copy"
        · exact ⟨nm, bi, rfl, hu, Or.inr hc2⟩
        · rw [if_neg hb, if_neg hc2] at h; simp_all
  | Selector x s => simp_all [count.builtin]
  | Paren e => simp_all [count.builtin]
  | Call f as el => simp_all [count.builtin]
  | ArrayType e => simp_all [count.builtin]
  | Star e => simp_all [count.builtin]
  | OtherExpr => simp_all [count.builtin]

/-- Witness for C5_amended_name_gating at a concrete counted call. -/
theorem C5_amended_name_gating_witness :
    ∃ nm o, Expr.Ident "copy" = Expr.Ident nm ∧
      piShadowCopy.Uses (Expr.Ident nm) = some o ∧
      (o.name = "append" ∨ o.name = "copy") :=
  C5_amended_name_gating piShadowCopy count.zero count.zero.bumpCopy
    (Expr.Ident "copy") [Expr.Ident "bs", Expr.Ident "s"] false (by decide)

/-- The callee shapes under which a call expression is syntactically a
function or method call to a named function: a bare identifier or a
selector reference (after paren stripping).  A declared function or
method always has an unnamed signature type in go/types. -/
def calleeNamesFunction : Expr → Bool
  | Expr.Ident _ => true
  | Expr.Selector _ _ => true
  | _ => false

/-- Claim C6: no false positives.  For a call expression whose callee is
(after paren stripping) an identifier or selector reference resolving to
a declared function or method — i.e. the callee's resolved type is a
function signature — the Conversion Recognizer declines, and count.node
leaves every conversion counter unchanged for that call.  This includes
a package-qualified reference resolving to a field/method selection,
which is rejected by the Selections check. -/
theorem C6_no_false_positives (pi : PackageInfo) (fn : Expr)
    (args : List Expr) (ell : Bool)
    (hshape : calleeNamesFunction (unparen fn) = true)
    (htype : pi.Types fn = some Ty.Signature) :
    isConversion pi (Expr.Call fn args ell) = none
    ∧ ∀ c c', count.node pi c (Expr.Call fn args ell) = some c' →
        c'.str2bs = c.str2bs ∧ c'.bs2str = c.bs2str ∧ c'.str2rs = c.str2rs
        ∧ c'.r2str = c.r2str ∧ c'.b2str = c.b2str := by
  have h1 : isConversion pi (Expr.Call fn args ell) = none := by
    cases args with
    | nil => cases ell <;> rfl
    | cons a rest =>
      cases rest with
      | cons b r2 => cases ell <;> rfl
      | nil =>
        cases ell with
        | true => rfl
        | false =>
          simp only [isConversion]
          cases hu : unparen fn with
          | Ident nm => rw [htype]; rfl
          | Selector x sel =>
            by_cases hs : pi.Selections (Expr.Selector x sel) = true
            · simp [hs]
            · simp only [Bool.not_eq_true] at hs
              rw [htype]
              simp [hs, isConversionTail]
          | Paren e => rw [hu] at hshape; simp [calleeNamesFunction] at hshape
          | Call g as el => rw [hu] at hshape; simp [calleeNamesFunction] at hshape
          | ArrayType e => rw [hu] at hshape; simp [calleeNamesFunction] at hshape
          | Star e => rw [hu] at hshape; simp [calleeNamesFunction] at hshape
          | OtherExpr => rw [hu] at hshape; simp [calleeNamesFunction] at hshape
  refine ⟨h1, ?_⟩
  intro c c' h
  simp only [count.node] at h
  cases hb : count.builtin pi c fn args ell with
  | none => rw [hb] at h; simp_all
  | some r =>
    rcases r with ⟨c1, flag⟩
    cases flag with
    | true =>
      simp only [hb] at h
      rcases count.builtin_true_cases pi c fn args ell c1 hb with h4 | h4 | h4 | h4 <;>
        (subst h4; cases h; exact ⟨rfl, rfl, rfl, rfl, rfl⟩)
    | false =>
      have hc1 : c1 = c := count.builtin_false_eq pi c fn args ell c1 hb
      subst hc1
      simp only [hb, h1] at h
      cases h
      exact ⟨rfl, rfl, rfl, rfl, rfl⟩

/-- A context in which the identifier `f` resolves to a declared function
(an unnamed signature type). -/
def piFuncCall : PackageInfo :=
  PackageInfo.mk
    (fun e => match e with | Expr.Ident "f" => some Ty.Signature | _ => none)
    (fun _ => false)
    (fun _ => none)

/-- Witness for C6_no_false_positives: the call `f(x)` to a declared
function is declined by the Conversion Recognizer. -/
theorem C6_no_false_positives_witness :
    isConversion piFuncCall (Expr.Call (Expr.Ident "f") [Expr.Ident "x"] false)
      = none :=
  (C6_no_false_positives piFuncCall (Expr.Ident "f") [Expr.Ident "x"] false
    rfl (by decide)).1

/-- A context in which `copy` resolves to the predeclared builtin and `bs`
is a []byte; used to exhibit the out-of-bounds access of the copy path. -/
def piCopyShort : PackageInfo :=
  PackageInfo.mk
    (fun e =>
      match e with
      | Expr.Ident "bs" => some (Ty.Slice (Ty.Basic BasicKind.Byte))
      | _ => none)
    (fun _ => false)
    (fun e =>
      match e with
      | Expr.Ident "copy" => some (Obj.Builtin "copy")
      | _ => none)

/-- Claim C10: the copy path reads arguments 0 and 1 without checking the
argument count.  First conjunct: with at least two arguments the accesses
are in bounds, so the recognizer never panics.  Second conjunct: the
append path checks for exactly two arguments first, so it never panics
regardless of the argument count.  Third conjunct: the count-precondition
is real — there is a call whose callee resolves to an object named `copy`
with fewer than two arguments on which the recognizer hits an
out-of-bounds argument index (modelled as `none`). -/
theorem C10_copy_unchecked_args :
    (∀ (pi : PackageInfo) (nm : String) (o : Obj) (args : List Expr)
        (ell : Bool) (c : count),
      pi.Uses (Expr.Ident nm) = some o → o.name = "copy" → 2 ≤ args.length →
      (count.builtin pi c (Expr.Ident nm) args ell).isSome = true)
    ∧ (∀ (pi : PackageInfo) (nm : String) (o : Obj) (args : List Expr)
        (ell : Bool) (c : count),
      pi.Uses (Expr.Ident nm) = some o → o.name = "append" →
      (count.builtin pi c (Expr.Ident nm) args ell).isSome = true)
    ∧ (∃ (pi : PackageInfo) (nm : String) (o : Obj) (args : List Expr)
        (ell : Bool) (c : count),
      pi.Uses (Expr.Ident nm) = some o ∧ o.name = "copy" ∧ args.length < 2 ∧
      count.builtin pi c (Expr.Ident nm) args ell = none) := by
  have hsome : ∀ (pi : PackageInfo) (c : count) (a0 a1 : Expr)
      (rest : List Expr) (ia : Bool),
      (count.builtinArgs pi c (a0 :: a1 :: rest) ia).isSome = true := by
    intro pi c a0 a1 rest ia
    simp only [count.builtinArgs]
    repeat' split
    all_goals simp
  refine ⟨?_, ?_, ?_⟩
  · intro pi nm o args ell c hu hnm hlen
    have hne : o.name ≠ "append" := by rw [hnm]; decide
    cases args with
    | nil => simp at hlen
    | cons a0 rest =>
      cases rest with
      | nil => simp at hlen
      | cons a1 r2 =>
        simp [count.builtin, hu, hne, hnm, hsome]
  · intro pi nm o args ell c hu hnm
    by_cases hsh : args.length ≠ 2 ∨ ell = false
    · simp [count.builtin, hu, hnm, hsh]
    · push_neg at hsh
      obtain ⟨hlen, hell⟩ := hsh
      cases args with
      | nil => simp at hlen
      | cons a0 rest =>
        cases rest with
        | nil => simp at hlen
        | cons a1 r2 =>
          simp [count.builtin, hu, hnm, hell, hlen, hsome]
  · refine ⟨piCopyShort, "copy", Obj.Builtin "copy", [Expr.Ident "bs"],
      false, count.zero, by decide, by decide, by decide, by decide⟩

/-- Witness for C10_copy_unchecked_args: a two-argument resolved copy call
does not panic. -/
theorem C10_copy_unchecked_args_witness :
    (count.builtin piCopyShort count.zero (Expr.Ident "copy")
        [Expr.Ident "bs", Expr.Ident "bs"] false).isSome = true :=
  C10_copy_unchecked_args.1 piCopyShort "copy" (Obj.Builtin "copy")
    [Expr.Ident "bs", Expr.Ident "bs"] false count.zero (by decide) rfl
    (by decide)

mutual

/-- The nodes visited by ast.Inspect within an expression subtree, in
pre-order: the node itself followed by the nodes of all its children
(ast.Walk descends into every child of every node). -/
def allNodes : Expr → List Expr
  | Expr.Ident nm => [Expr.Ident nm]
  | Expr.Selector x s => Expr.Selector x s :: allNodes x
  | Expr.Paren e => Expr.Paren e :: allNodes e
  | Expr.Call f args ell => Expr.Call f args ell :: (allNodes f ++ allNodesL args)
  | Expr.ArrayType e => Expr.ArrayType e :: allNodes e
  | Expr.Star e => Expr.Star e :: allNodes e
  | Expr.OtherExpr => [Expr.OtherExpr]

/-- allNodes over a list of child expressions. -/
def allNodesL : List Expr → List Expr
  | [] => []
  | e :: es => allNodes e ++ allNodesL es

end

/-- Every expression occurs in its own visited-node list. -/
theorem self_mem_allNodes : ∀ e : Expr, e ∈ allNodes e := by
  intro e
  cases e <;> simp [allNodes]

/-- A member of a child list occurs in the visited-node list of the list. -/
theorem mem_allNodesL (a : Expr) (l : List Expr) (h : a ∈ l) :
    a ∈ allNodesL l := by
  induction l with
  | nil => cases h
  | cons x xs ih =>
    simp only [allNodesL, List.mem_append]
    rcases List.mem_cons.mp h with h1 | h2
    · exact Or.inl (h1 ▸ self_mem_allNodes a)
    · exact Or.inr (ih h2)

/-- The shape switch only ever returns the target type and argument it was
given. -/
theorem isConversionTail_some (tgt : Option Ty) (conv a : Expr)
    (t : Option Ty) (b : Expr)
    (h : isConversionTail tgt conv a = some (t, b)) : t = tgt ∧ b = a := by
  cases conv with
  | Ident nm =>
    simp only [isConversionTail] at h
    repeat' split at h
    all_goals simp_all
  | Selector x s => simp [isConversionTail] at h
  | Paren e => simp [isConversionTail] at h
  | Call f as el => simp [isConversionTail] at h
  | ArrayType e => simp only [isConversionTail, Option.some.injEq, Prod.mk.injEq] at h; exact ⟨h.1.symm, h.2.symm⟩
  | Star e => simp only [isConversionTail, Option.some.injEq, Prod.mk.injEq] at h; exact ⟨h.1.symm, h.2.symm⟩
  | OtherExpr => simp [isConversionTail] at h

/-- Inversion of an isConversion match: the node is a one-argument call
without the expansion marker, the returned argument is that argument, and
the returned target type is the callee's resolved type. -/
theorem isConversion_shape (pi : PackageInfo) (n : Expr) (t : Option Ty)
    (a : Expr) (h : isConversion pi n = some (t, a)) :
    ∃ f, n = Expr.Call f [a] false ∧ t = pi.Types f := by
  cases n with
  | Call f args ell =>
    cases args with
    | nil => cases ell <;> simp [isConversion] at h
    | cons a' rest =>
      cases rest with
      | cons b r2 => cases ell <;> simp [isConversion] at h
      | nil =>
        cases ell with
        | true => simp [isConversion] at h
        | false =>
          simp only [isConversion] at h
          refine ⟨f, ?_⟩
          cases hu : unparen f with
          | Selector x sel =>
            simp only [hu] at h
            by_cases hs : pi.Selections (Expr.Selector x sel) = true
            · rw [if_pos hs] at h; cases h
            · rw [if_neg hs] at h
              obtain ⟨h1, h2⟩ := isConversionTail_some _ _ _ _ _ h
              exact ⟨by rw [h2], h1⟩
          | Ident nm =>
            rw [hu] at h
            obtain ⟨h1, h2⟩ := isConversionTail_some _ _ _ _ _ h
            exact ⟨by rw [h2], h1⟩
          | Paren e =>
            rw [hu] at h
            obtain ⟨h1, h2⟩ := isConversionTail_some _ _ _ _ _ h
            exact ⟨by rw [h2], h1⟩
          | Call g as el =>
            rw [hu] at h
            obtain ⟨h1, h2⟩ := isConversionTail_some _ _ _ _ _ h
            exact ⟨by rw [h2], h1⟩
          | ArrayType e =>
            rw [hu] at h
            obtain ⟨h1, h2⟩ := isConversionTail_some _ _ _ _ _ h
            exact ⟨by rw [h2], h1⟩
          | Star e =>
            rw [hu] at h
            obtain ⟨h1, h2⟩ := isConversionTail_some _ _ _ _ _ h
            exact ⟨by rw [h2], h1⟩
          | OtherExpr =>
            rw [hu] at h
            obtain ⟨h1, h2⟩ := isConversionTail_some _ _ _ _ _ h
            exact ⟨by rw [h2], h1⟩
  | Ident nm => simp [isConversion] at h
  | Selector x s => simp [isConversion] at h
  | Paren e => simp [isConversion] at h
  | ArrayType e => simp [isConversion] at h
  | Star e => simp [isConversion] at h
  | OtherExpr => simp [isConversion] at h

/-- Inversion of a counted builtin call that incremented neither plain
counter: the redundant branch fired, so there are at least two arguments
and argument 1 is itself a recognized conversion whose nested argument
classifies as String. -/
theorem count.builtinArgs_redundant_inv (pi : PackageInfo) (c : count)
    (args : List Expr) (ia : Bool) (c1 : count)
    (h : count.builtinArgs pi c args ia = some (c1, true))
    (hap : c1.append = c.append) (hcp : c1.copy = c.copy) :
    ∃ a0 a1 rest t inner, args = a0 :: a1 :: rest
      ∧ isConversion pi a1 = some (t, inner)
      ∧ KindOfOpt (pi.Types inner) = Kind.String := by
  cases args with
  | nil => simp [count.builtinArgs] at h
  | cons a0 rest =>
    cases rest with
    | nil =>
      simp only [count.builtinArgs] at h
      split at h <;> simp_all
    | cons a1 r2 =>
      by_cases hb0 : KindOfOpt (pi.Types a0) = Kind.Bytes
      · by_cases hb1 : KindOfOpt (pi.Types a1) = Kind.Bytes
        · cases hc : isConversion pi a1 with
          | none => simp [count.builtinArgs, hb0, hb1, hc] at h
          | some p =>
            obtain ⟨t, inner⟩ := p
            by_cases hS : KindOfOpt (pi.Types inner) = Kind.String
            · exact ⟨a0, a1, r2, t, inner, rfl, hc, hS⟩
            · simp [count.builtinArgs, hb0, hb1, hc, hS] at h
        · by_cases hS1 : KindOfOpt (pi.Types a1) = Kind.String
          · cases ia with
            | true =>
              simp [count.builtinArgs, hb0, hb1, hS1] at h
              rw [← h] at hap
              have hx : c.append + 1 = c.append := hap
              exact absurd hx (by omega)
            | false =>
              simp [count.builtinArgs, hb0, hb1, hS1] at h
              rw [← h] at hcp
              have hx : c.copy + 1 = c.copy := hcp
              exact absurd hx (by omega)
          · simp [count.builtinArgs, hb0, hb1, hS1] at h
      · simp [count.builtinArgs, hb0] at h

/-- Lifting of builtinArgs_redundant_inv through count.builtin. -/
theorem count.builtin_redundant_inv (pi : PackageInfo) (c : count)
    (fn : Expr) (args : List Expr) (ell : Bool) (c1 : count)
    (h : count.builtin pi c fn args ell = some (c1, true))
    (hap : c1.append = c.append) (hcp : c1.copy = c.copy) :
    ∃ a0 a1 rest t inner, args = a0 :: a1 :: rest
      ∧ isConversion pi a1 = some (t, inner)
      ∧ KindOfOpt (pi.Types inner) = Kind.String := by
  cases fn with
  | Ident nm =>
    simp only [count.builtin] at h
    cases hu : pi.Uses (Expr.Ident nm) with
    | none => rw [hu] at h; simp_all
    | some bi =>
      simp only [hu] at h
      by_cases hb : bi.name = "append"
      · rw [if_pos hb] at h
        by_cases hsh : args.length ≠ 2 ∨ ell = false
        · rw [if_pos hsh] at h; simp_all
        · rw [if_neg hsh] at h
          exact count.builtinArgs_redundant_inv _ _ _ _ _ h hap hcp
      · rw [if_neg hb] at h
        by_cases hc2 : bi.name = "copy"
        · rw [if_pos hc2] at h
          exact count.builtinArgs_redundant_inv _ _ _ _ _ h hap hcp
        · rw [if_neg hc2] at h; simp_all
  | Selector x s => simp_all [count.builtin]
  | Paren e => simp_all [count.builtin]
  | Call f as el => simp_all [count.builtin]
  | ArrayType e => simp_all [count.builtin]
  | Star e => simp_all [count.builtin]
  | OtherExpr => simp_all [count.builtin]

/-- Claim C9 (implicit): for a builtin call counted under a redundant
category (counted, with neither plain counter incremented), the nested
conversion expression at argument position 1 is itself one of the nodes
visited by the traversal of the call's subtree, and when count.node is
applied to it, the direct-to-bytes (str2bs) conversion counter is
incremented — so the site increments two counters in total.  The
coherence hypothesis `hcoh` records that the conversion's resolved target
type classifies as Bytes, which holds in any type-checked program since
the builtin recognizer already found argument 1 to classify as Bytes. -/
theorem C9_redundant_also_counts_direct (pi : PackageInfo) (c c' : count)
    (fn : Expr) (args : List Expr) (ell : Bool) (a1 : Expr)
    (ha : args.get? 1 = some a1)
    (h : count.builtin pi c fn args ell = some (c', true))
    (hap : c'.append = c.append) (hcp : c'.copy = c.copy)
    (hcoh : ∀ t inner, isConversion pi a1 = some (t, inner) →
        KindOfOpt t = Kind.Bytes)
    (c2 : count) :
    a1 ∈ allNodes (Expr.Call fn args ell)
    ∧ count.node pi c2 a1 = some c2.bumpStr2bs := by
  obtain ⟨a0, a1', rest, t, inner, hargs, hconv, hstr⟩ :=
    count.builtin_redundant_inv pi c fn args ell c' h hap hcp
  subst hargs
  simp only [List.get?_cons_succ, List.get?_cons_zero, Option.some.injEq] at ha
  subst ha
  constructor
  · simp only [allNodes, List.mem_cons, List.mem_append]
    exact Or.inr (Or.inr (mem_allNodesL _ _ (by simp)))
  · have htk : KindOfOpt t = Kind.Bytes := hcoh t inner hconv
    obtain ⟨f1, hshape, ht⟩ := isConversion_shape pi a1' t inner hconv
    subst hshape
    have hbf : count.builtin pi c2 f1 [inner] false = some (c2, false) := by
      cases f1 with
      | Ident nm =>
        cases hu : pi.Uses (Expr.Ident nm) with
        | none => simp [count.builtin, hu]
        | some bi =>
          simp only [count.builtin, hu]
          by_cases hb : bi.name = "append"
          · simp [hb]
          · by_cases hc2n : bi.name = "copy"
            · simp [hb, hc2n, count.builtinArgs, hstr]
            · simp [hb, hc2n]
      | Selector x s => simp [count.builtin]
      | Paren e => simp [count.builtin]
      | Call g as el => simp [count.builtin]
      | ArrayType e => simp [count.builtin]
      | Star e => simp [count.builtin]
      | OtherExpr => simp [count.builtin]
    simp [count.node, hbf, hconv, htk, hstr]

/-- Witness for C9_redundant_also_counts_direct: in the context of
`append(bs, []byte(s)...)`, the nested `[]byte(s)` node is visited by the
traversal and itself increments the direct-to-bytes counter. -/
theorem C9_redundant_also_counts_direct_witness :
    convBytesOfS ∈ allNodes (Expr.Call (Expr.Ident "append")
        [Expr.Ident "bs", convBytesOfS] true)
    ∧ count.node piAppend count.zero convBytesOfS
        = some count.zero.bumpStr2bs :=
  C9_redundant_also_counts_direct piAppend count.zero count.zero.bumpRAppend
    (Expr.Ident "append") [Expr.Ident "bs", convBytesOfS] true convBytesOfS
    rfl (by decide) rfl rfl
    (fun t inner hconv => by
      rw [show isConversion piAppend convBytesOfS
          = some (some (Ty.Slice (Ty.Basic BasicKind.Byte)), Expr.Ident "s")
        from rfl] at hconv
      injection hconv with hp
      injection hp with h1 h2
      rw [← h1]
      decide)
    count.zero

/-- The lines state, from src/main.go lines 377-380: the last line seen.
It must not be reused for different files. -/
structure lines where
  last : Nat

/-- lines.delta, src/main.go lines 382-392.  A node is modelled by the
source line of its position (`fs.Position(n.Pos()).Line`), with `none`
standing for the nil callbacks ast.Inspect makes when leaving a node.  A
node contributes 1 exactly when its line differs from the last seen line,
which is then updated. -/
def lines.delta (l : lines) (n : Option Nat) : lines × Nat :=
  match n with
  | none => (l, 0)
  | some ln => if ln = l.last then (l, 0) else (⟨ln⟩, 1)

/-- One step of the per-file Inspect closure of main (src/main.go lines
427-431) as far as the line counter is concerned: thread the lines state
and add the delta to the accumulated lloc. -/
def llocStep (s : lines × Nat) (n : Option Nat) : lines × Nat :=
  ((s.1.delta n).1, s.2 + (s.1.delta n).2)

/-- The traversal of a single file (src/main.go lines 423-432) as far as
the line counter is concerned: the lines state is seeded with the line of
the file's position, and every visited node adds its delta.  Returns how
much the file's traversal adds to c.lloc. -/
def visitFile (firstLine : Nat) (visits : List (Option Nat)) : Nat :=
  (List.foldl llocStep (⟨firstLine⟩, 0) visits).2

/-- The number of distinct source lines holding at least one visited
node. -/
def distinctLines (visits : List (Option Nat)) : Nat :=
  (visits.filterMap id).toFinset.card

/-- The line-counting recursion on the real (non-nil) visit lines. -/
def llocGo (last : Nat) : List Nat → Nat
  | [] => 0
  | x :: xs => if x = last then llocGo last xs else 1 + llocGo x xs

/-- The file fold computes llocGo on the non-nil visit lines. -/
theorem visitFile_eq_llocGo : ∀ (visits : List (Option Nat)) (last acc : Nat),
    (List.foldl llocStep (⟨last⟩, acc) visits).2
      = acc + llocGo last (visits.filterMap id) := by
  intro visits
  induction visits with
  | nil => intro last acc; simp [llocGo]
  | cons n rest ih =>
    intro last acc
    cases n with
    | none =>
      rw [List.foldl_cons]
      have hstep : llocStep (⟨last⟩, acc) none = (⟨last⟩, acc) := by
        simp [llocStep, lines.delta]
      rw [hstep, ih]
      simp
    | some ln =>
      rw [List.foldl_cons]
      by_cases hl : ln = last
      · have hstep : llocStep (⟨last⟩, acc) (some ln) = (⟨last⟩, acc) := by
          simp [llocStep, lines.delta, hl]
        rw [hstep, ih]
        simp [List.filterMap_cons, llocGo, hl]
      · have hstep : llocStep (⟨last⟩, acc) (some ln) = (⟨ln⟩, acc + 1) := by
          simp [llocStep, lines.delta, hl]
        rw [hstep, ih]
        simp only [List.filterMap_cons, id, llocGo, if_neg hl]
        omega

/-- On a non-decreasing line sequence bounded below by the seed, llocGo
counts the distinct lines other than the seed. -/
theorem llocGo_sorted : ∀ (l : List Nat), List.Sorted (· ≤ ·) l →
    ∀ last, (∀ x ∈ l, last ≤ x) →
    llocGo last l = (l.toFinset.erase last).card := by
  intro l
  induction l with
  | nil => intro _ last _; simp [llocGo]
  | cons x xs ih =>
    intro hs last hle
    have hxs := hs.of_cons
    have hxall := List.rel_of_sorted_cons hs
    by_cases hx : x = last
    · subst hx
      have h1 : llocGo x (x :: xs) = llocGo x xs := by simp [llocGo]
      rw [h1, ih hxs x hxall, List.toFinset_cons, Finset.erase_insert_eq_erase]
    · have h1 : llocGo last (x :: xs) = 1 + llocGo x xs := by simp [llocGo, hx]
      rw [h1, ih hxs x hxall]
      have hlx : last < x :=
        lt_of_le_of_ne (hle x (List.mem_cons_self x xs)) (Ne.symm hx)
      have hnot : last ∉ (x :: xs).toFinset := by
        simp only [List.toFinset_cons, Finset.mem_insert, List.mem_toFinset]
        rintro (he | hm)
        · omega
        · have := hxall last hm
          omega
      have hins : insert x xs.toFinset = insert x (xs.toFinset.erase x) := by
        ext y
        by_cases hy : y = x <;> simp [hy]
      have herase : ((x :: xs).toFinset).erase last = (x :: xs).toFinset :=
        Finset.erase_eq_of_not_mem hnot
      rw [herase, List.toFinset_cons, hins,
        Finset.card_insert_of_not_mem (Finset.not_mem_erase _ _)]
      omega

/-- Counterexample to claim C7: a file whose only node sits on the file's
first line.  One distinct source line contains a node, but the counter
increases by 0, because the baseline is seeded to the first line and the
first node's delta is therefore zero: the first line is counted zero
times, not once. -/
theorem C7_counterexample :
    visitFile 1 [some 1] = 0 ∧ distinctLines [some 1] = 1
    ∧ visitFile 1 [some 1] ≠ distinctLines [some 1] := by
  refine ⟨by decide, by decide, by decide⟩

/-- Claim C7 as amended: for a single file whose visit sequence starts on
the file's first line (the File node itself is the first node visited and
sits at the seeded position) and whose node lines are non-decreasing (the
pre-order traversal follows token order), the lines-visited counter
increases by the number of distinct source lines containing at least one
node MINUS ONE: the seeding makes the first line's delta zero, so the
file's first line is never counted. -/
theorem C7_amended_lines_counter (firstLine : Nat)
    (visits : List (Option Nat)) (rest : List Nat)
    (hv : visits.filterMap id = firstLine :: rest)
    (hs : List.Sorted (· ≤ ·) (visits.filterMap id)) :
    visitFile firstLine visits + 1 = distinctLines visits := by
  have h1 : visitFile firstLine visits
      = llocGo firstLine (visits.filterMap id) := by
    have := visitFile_eq_llocGo visits firstLine 0
    simpa [visitFile] using this
  rw [hv] at hs
  have hle : ∀ x ∈ firstLine :: rest, firstLine ≤ x := by
    intro x hx
    rcases List.mem_cons.mp hx with h | h
    · omega
    · exact List.rel_of_sorted_cons hs x h
  rw [distinctLines, h1, hv, llocGo_sorted _ hs firstLine hle]
  have hmem : firstLine ∈ (firstLine :: rest).toFinset := by simp
  rw [Finset.card_erase_of_mem hmem]
  have hpos : 0 < (firstLine :: rest).toFinset.card :=
    Finset.card_pos.mpr ⟨firstLine, hmem⟩
  omega

/-- Witness for C7_amended_lines_counter: a file with nodes on lines 1, 1,
2 and 3 (and one nil callback) adds 2 to the counter, one less than its 3
distinct node lines. -/
theorem C7_amended_lines_counter_witness :
    visitFile 1 [some 1, some 1, some 2, none, some 3] + 1
      = distinctLines [some 1, some 1, some 2, none, some 3] :=
  C7_amended_lines_counter 1 [some 1, some 1, some 2, none, some 3]
    [1, 2, 3] (by decide) (by decide)

/-- One fmt.Println call: a single printed line (a call with no arguments
prints a blank line). -/
def println (s : String) : List String := [s]

/-- The report of main, src/main.go lines 435-449: the sequence of printed
lines, in statement order. -/
def report (c : count) (npkgs : Nat) : List String :=
  println ("[]byte(string): " ++ toString c.str2bs) ++
  println ("string([]byte): " ++ toString c.bs2str) ++
  println ("[]rune(string): " ++ toString c.str2rs) ++
  println "" ++
  println ("string(rune): " ++ toString c.r2str) ++
  println ("string(byte): " ++ toString c.b2str) ++
  println "" ++
  println ("append([]byte, string...): " ++ toString c.append) ++
  println ("copy([]byte, string): " ++ toString c.copy) ++
  println "" ++
  println ("append([]byte, []byte(string)...): " ++ toString c.rAppend) ++
  println ("copy([]byte, []byte(string)): " ++ toString c.rCopy) ++
  println "" ++
  println ("packages examined: " ++ toString npkgs) ++
  println ("lloc examined: " ++ toString c.lloc)

/-- The report order claimed by C8, which follows the routing table of
§4.5 of the spec: direct-to-bytes, direct-to-runes, bytes-to-string,
rune-to-string, byte-to-string, the builtin categories, the redundant
categories, then the trailing summary, with the same blank-line group
separators as the program prints. -/
def reportClaimOrder (c : count) (npkgs : Nat) : List String :=
  ["[]byte(string): " ++ toString c.str2bs,
   "[]rune(string): " ++ toString c.str2rs,
   "string([]byte): " ++ toString c.bs2str,
   "",
   "string(rune): " ++ toString c.r2str,
   "string(byte): " ++ toString c.b2str,
   "",
   "append([]byte, string...): " ++ toString c.append,
   "copy([]byte, string): " ++ toString c.copy,
   "",
   "append([]byte, []byte(string)...): " ++ toString c.rAppend,
   "copy([]byte, []byte(string)): " ++ toString c.rCopy,
   "",
   "packages examined: " ++ toString npkgs,
   "lloc examined: " ++ toString c.lloc]

/-- The order in which the program actually prints the metrics:
direct-to-bytes, then BYTES-TO-STRING, then DIRECT-TO-RUNES (the second
and third rows of the §4.5 table are swapped relative to the claim),
followed by rune-to-string, byte-to-string, the builtin group, the
redundant group, and the package/lloc summary, with blank-line
separators between the groups. -/
def reportSourceOrder (c : count) (npkgs : Nat) : List String :=
  ["[]byte(string): " ++ toString c.str2bs,
   "string([]byte): " ++ toString c.bs2str,
   "[]rune(string): " ++ toString c.str2rs,
   "",
   "string(rune): " ++ toString c.r2str,
   "string(byte): " ++ toString c.b2str,
   "",
   "append([]byte, string...): " ++ toString c.append,
   "copy([]byte, string): " ++ toString c.copy,
   "",
   "append([]byte, []byte(string)...): " ++ toString c.rAppend,
   "copy([]byte, []byte(string)): " ++ toString c.rCopy,
   "",
   "packages examined: " ++ toString npkgs,
   "lloc examined: " ++ toString c.lloc]

/-- Counterexample to claim C8: with pairwise-distinct counter values, the
program's report differs from the claimed §4.5-table order — the program
prints bytes-to-string second and direct-to-runes third, while the table
order of the claim lists direct-to-runes second and bytes-to-string
third. -/
theorem C8_counterexample :
    report ⟨1, 2, 3, 4, 5, 6, 7, 8, 9, 10⟩ 11
      ≠ reportClaimOrder ⟨1, 2, 3, 4, 5, 6, 7, 8, 9, 10⟩ 11 := by
  decide

/-- Claim C8 as amended: the report prints one metric name and integer
value per line, in the program's fixed order — direct-to-bytes,
bytes-to-string, direct-to-runes, rune-to-string, byte-to-string,
interesting-append, interesting-copy, redundant-append, redundant-copy —
followed by the trailing package-count and line-count summary, with
blank-line separators between the metric groups. -/
theorem C8_amended_report_order :
    ∀ (c : count) (npkgs : Nat), report c npkgs = reportSourceOrder c npkgs := by
  intro c npkgs
  rfl
